import Mathlib

/-!
Verification of `braindecode/datasets/base.py`: the dataset container classes
`BaseDataset`, `WindowsDataset` and `BaseConcatDataset`.

The Python code is shallowly embedded below.  External collaborators are
modelled just as far as the code under verification uses them:

* a pandas `Series` (single row of named scalar metadata) is an ordered
  association list `List (String × Val)`; item assignment `s[k] = v`
  overwrites every entry carrying key `k` (pandas assigns all positions of a
  duplicated label) or appends a fresh entry;
* a pandas `DataFrame` is a list of rows (positional index `0, 1, 2, ...`,
  which is the index pandas gives a frame built from a generator of rows);
* an `mne.io.Raw` is its sampling rate, channel names, and the per-time-point
  data slices (`raw[:, t][0]`); `len(raw)` and `len(raw.times)` both equal the
  number of time points;
* an `mne.Epochs` is its sampling rate, channel names, per-epoch time axis,
  event list, per-segment data, and per-segment metadata rows;
* torch's `ConcatDataset` contributes `__len__`/`__getitem__` via cumulative
  sizes and `bisect_right`, and the non-emptiness assertion of its
  constructor;
* Python statefulness (the in-place refresh performed by the `description`
  property getters) is made explicit by state passing: a read returns the
  updated object together with the row it hands back, and that row *is* the
  stored row of the updated object, which models the aliasing of the getter;
* a raised exception is an `Except.error`/`none` result; sampling rates are
  modelled as integers since the code only stores and compares them.
-/

namespace Braindecode

/-- Scalar cell values of pandas Series / DataFrame objects. -/
inductive Val where
  | i : Int → Val
  | s : String → Val
deriving DecidableEq, Repr

/-- A pandas Series with a string index: an ordered list of (label, value)
entries. -/
abbrev Series := List (String × Val)

/-- `s[k] = v` on a pandas Series: overwrite every entry labelled `k`
(pandas assigns all positions of a duplicated label), or append a new entry
when the label is absent. -/
def setVal (s : Series) (k : String) (v : Val) : Series :=
  if s.any (fun p => p.1 = k) then s.map (fun p => if p.1 = k then (k, v) else p)
  else s ++ [(k, v)]

/-- `s[k]` on a pandas Series: the first value stored under label `k`. -/
def getVal? (s : Series) (k : String) : Option Val :=
  (s.find? (fun p => p.1 = k)).map Prod.snd

/-- `k in s` on a pandas Series: membership in the index. -/
def hasKey (s : Series) (k : String) : Bool :=
  s.any (fun p => p.1 = k)

/-- The two assignments every `description` property getter performs before
returning the stored row: `self._description["sfreq"] = a` and
`self._description["n_channels"] = b`. -/
def refreshSeries (s : Series) (a b : Val) : Series :=
  setVal (setVal s "sfreq" a) "n_channels" b

/-- An `mne.io.Raw` continuous recording.  `samples` is indexed by time
point; entry `t` is the per-channel data slice `raw[:, t][0]`.  Both
`len(raw)` and `len(raw.times)` equal `samples.length`. -/
structure Raw where
  sfreq : Int
  ch_names : List String
  samples : List (List Int)
deriving DecidableEq, Repr

/-- One row of the per-segment `metadata` table of an `mne.Epochs`: the
`target` column plus the three positional columns read by
`WindowsDataset.__getitem__` (`md_keys`). -/
structure MetaRow where
  target : Val
  i_supercrop_in_trial : Int
  i_start_in_trial : Int
  i_stop_in_trial : Int
deriving DecidableEq, Repr

/-- An `mne.Epochs` windowed recording.  `times` is the within-epoch time
axis (`len(epochs.times)` is the window length), `events` has one entry per
segment, `data` holds each segment's channels × times block
(`epochs.get_data(item=i)[0]`), and `metadata` the per-segment rows. -/
structure Epochs where
  sfreq : Int
  ch_names : List String
  times : List Int
  events : List Nat
  data : List (List (List Int))
  metadata : List MetaRow
deriving DecidableEq, Repr

/-- `BaseDataset`: one continuous recording, one metadata row, an optional
target fixed at construction. -/
structure BaseDataset where
  raw : Raw
  _description : Series
  target : Option Val
deriving DecidableEq, Repr

/-- The `BaseDataset.description` property getter: writes the recording's
current `sfreq` and `n_channels` into the stored row and returns that row.
The returned Series is the `_description` of the returned (updated) state,
which models the Python getter returning the live internal row. -/
def BaseDataset.descriptionRead (d : BaseDataset) : BaseDataset × Series :=
  let s := refreshSeries d._description (Val.i d.raw.sfreq)
      (Val.i (d.raw.ch_names.length : Int))
  ({ d with _description := s }, s)

/-- `BaseDataset.__init__`.  The description setter stores the row; when a
target name is requested, `target_name in self.description` and
`self.description[target_name]` each go through the property getter (all or
nothing: a missing name raises `ValueError` and no object is produced). -/
def BaseDataset.make (raw : Raw) (description : Series)
    (target_name : Option String) : Except String BaseDataset :=
  let d0 : BaseDataset := { raw := raw, _description := description, target := none }
  match target_name with
  | none => Except.ok d0
  | some t =>
    let p1 := d0.descriptionRead
    if hasKey p1.2 t then
      let p2 := p1.1.descriptionRead
      Except.ok { p2.1 with target := getVal? p2.2 t }
    else Except.error (t ++ " not in description.")

/-- `BaseDataset.__getitem__`: `(raw[:, index][0], target)`; an out-of-range
index propagates the backend's error (`none`). -/
def BaseDataset.getitem (d : BaseDataset) (index : Nat) :
    Option (List Int × Option Val) :=
  (d.raw.samples.get? index).map (fun x => (x, d.target))

/-- `BaseDataset.__len__`: `len(self.raw)`. -/
def BaseDataset.len (d : BaseDataset) : Nat :=
  d.raw.samples.length

/-- `WindowsDataset`: one windowed recording plus one metadata row. -/
structure WindowsDataset where
  windows : Epochs
  _description : Series
deriving DecidableEq, Repr

/-- `WindowsDataset.__init__` (the description setter only). -/
def WindowsDataset.make (windows : Epochs) (description : Series) : WindowsDataset :=
  { windows := windows, _description := description }

/-- `WindowsDataset.description` getter, same shape as the `BaseDataset`
one but reading the `Epochs` backend. -/
def WindowsDataset.descriptionRead (d : WindowsDataset) : WindowsDataset × Series :=
  let s := refreshSeries d._description (Val.i d.windows.sfreq)
      (Val.i (d.windows.ch_names.length : Int))
  ({ d with _description := s }, s)

/-- `WindowsDataset.__getitem__`: segment data, the metadata row's `target`,
and the list `md[md_keys].to_list()`. -/
def WindowsDataset.getitem (d : WindowsDataset) (index : Nat) :
    Option (List (List Int) × Val × List Int) :=
  match d.windows.data.get? index, d.windows.metadata.get? index with
  | some x, some md =>
    some (x, md.target, [md.i_supercrop_in_trial, md.i_start_in_trial, md.i_stop_in_trial])
  | _, _ => none

/-- `WindowsDataset.__len__`: `len(self.windows.events)`. -/
def WindowsDataset.len (d : WindowsDataset) : Nat :=
  d.windows.events.length

/-- A child of a `BaseConcatDataset`: either kind of per-recording dataset. -/
inductive DS where
  | base : BaseDataset → DS
  | windows : WindowsDataset → DS
deriving DecidableEq, Repr

/-- `hasattr(ds, "raw")`. -/
def DS.hasRaw : DS → Bool
  | DS.base _ => true
  | DS.windows _ => false

/-- A sample returned by indexing into a concatenation: the tuple shape of
whichever child answered. -/
inductive Sample where
  | base : List Int → Option Val → Sample
  | win : List (List Int) → Val → List Int → Sample
deriving DecidableEq, Repr

def DS.len : DS → Nat
  | DS.base b => b.len
  | DS.windows w => w.len

def DS.getitem : DS → Nat → Option Sample
  | DS.base b, i => (b.getitem i).map (fun p => Sample.base p.1 p.2)
  | DS.windows w, i => (w.getitem i).map (fun t => Sample.win t.1 t.2.1 t.2.2)

/-- Dispatch of the `description` property to the child's class. -/
def DS.descriptionRead : DS → DS × Series
  | DS.base b => ((DS.base (b.descriptionRead).1), (b.descriptionRead).2)
  | DS.windows w => ((DS.windows (w.descriptionRead).1), (w.descriptionRead).2)

/-- `getattr(ds, ds_type).info["sfreq"]`, `len(getattr(ds, ds_type).ch_names)`
and `len(getattr(ds, ds_type).times)` in one step; `none` is the
`AttributeError` of a `getattr` on the wrong kind of child. -/
def DS.getattrInfo : DS → String → Option (Int × Nat × Nat)
  | DS.base b, t =>
    if t = "raw" then some (b.raw.sfreq, b.raw.ch_names.length, b.raw.samples.length)
    else none
  | DS.windows w, t =>
    if t = "windows" then some (w.windows.sfreq, w.windows.ch_names.length, w.windows.times.length)
    else none

/-- A pandas DataFrame: rows at positional index `0, 1, 2, ...`. -/
abbrev DataFrame := List Series

/-- `df[k] = v` on a DataFrame: set column `k` to the scalar `v` in every
row. -/
def setCol (df : DataFrame) (k : String) (v : Val) : DataFrame :=
  df.map (fun r => setVal r k v)

/-- `BaseConcatDataset`: the children held by the torch `ConcatDataset`
parent, plus the aggregate description frame. -/
structure BaseConcatDataset where
  datasets : List DS
  _description : DataFrame
deriving DecidableEq, Repr

/-- `BaseConcatDataset.__init__`: torch's `ConcatDataset.__init__` asserts
the list is non-empty and stores it; `pd.DataFrame(ds.description for ds in
list_of_ds)` reads every child's description property, which refreshes each
child in place, so the stored children are the refreshed ones and the frame
rows are the refreshed rows. -/
def BaseConcatDataset.make (l : List DS) : Except String BaseConcatDataset :=
  match l with
  | [] => Except.error "datasets should not be an empty iterable"
  | _ => Except.ok
      { datasets := l.map (fun d => (DS.descriptionRead d).1),
        _description := l.map (fun d => (DS.descriptionRead d).2) }

/-- Running cumulative sums, as `ConcatDataset.cumsum` computes them. -/
def cumsumAux (acc : Nat) : List Nat → List Nat
  | [] => []
  | x :: xs => (acc + x) :: cumsumAux (acc + x) xs

def cumsum (l : List Nat) : List Nat := cumsumAux 0 l

/-- `bisect.bisect_right(a, x)` for a sorted list: the number of elements
not exceeding `x`. -/
def bisectRight (l : List Nat) (x : Nat) : Nat :=
  l.countP (fun a => a ≤ x)

/-- `l[-1]` with a default for the impossible empty case. -/
def lastD : List Nat → Nat → Nat
  | [], d => d
  | x :: xs, _ => lastD xs x

/-- `ConcatDataset.__len__`: `self.cumulative_sizes[-1]`. -/
def BaseConcatDataset.len (c : BaseConcatDataset) : Nat :=
  lastD (cumsum (c.datasets.map DS.len)) 0

/-- `ConcatDataset.__getitem__`: `bisect_right` over the cumulative sizes
picks the child, the preceding cumulative size is subtracted, and the child
is indexed; `self.datasets[dataset_idx]` out of range is an `IndexError`
(`none`). -/
def BaseConcatDataset.getitem (c : BaseConcatDataset) (idx : Nat) : Option Sample :=
  let cum := cumsum (c.datasets.map DS.len)
  let di := bisectRight cum idx
  match c.datasets.get? di with
  | none => none
  | some d => DS.getitem d (if di = 0 then idx else idx - cum.getD (di - 1) 0)

/-- Modelled from the spec, for comparison with the code: "`get(i)` resolves
`i` to `(child_index, local_index)` via prefix-sum search over child
lengths". -/
def specResolve : List Nat → Nat → Option (Nat × Nat)
  | [], _ => none
  | l :: ls, i =>
    if i < l then some (0, i)
    else (specResolve ls (i - l)).map (fun p => (p.1 + 1, p.2))

/-- The `ds_type` choice of the concat description getter:
`set([hasattr(ds, "raw") for ds in self.datasets]) == {1}`. -/
def dsTypeOf (datasets : List DS) : String :=
  if (datasets.map DS.hasRaw).dedup = [true] then "raw" else "windows"

/-- The `(sfreq, n_channels, n_times)` triples collected from every child by
the concat description getter; `none` is the `AttributeError` raised on a
mixed list. -/
def concatInfos (c : BaseConcatDataset) : Option (List (Int × Nat × Nat)) :=
  c.datasets.mapM (fun d => DS.getattrInfo d (dsTypeOf c.datasets))

/-- `BaseConcatDataset.description` getter: collect the per-child triples,
raise on any disagreement, then stamp the shared values into the stored
frame and return it.  The first component is the post-read state: on every
error path it is the unchanged input, since the code raises before any
assignment to `self._description`. -/
def BaseConcatDataset.descriptionRead (c : BaseConcatDataset) :
    BaseConcatDataset × Except String DataFrame :=
  match concatInfos c with
  | none => (c, Except.error "AttributeError")
  | some infos =>
    let fs := infos.map (fun t => t.1)
    let n_channels := infos.map (fun t => t.2.1)
    let n_times := infos.map (fun t => t.2.2)
    if 1 < fs.dedup.length then
      (c, Except.error "Recordings have different sampling rates.")
    else if 1 < n_channels.dedup.length then
      (c, Except.error "Recordings have different number of channels.")
    else if 1 < n_times.dedup.length then
      (c, Except.error "Recordings have different window lengths.")
    else
      match infos with
      | [] => (c, Except.error "IndexError: list index out of range")
      | t0 :: _ =>
        let df := setCol (setCol (setCol c._description
            "sfreq" (Val.i t0.1))
            "n_channels" (Val.i (t0.2.1 : Int)))
            "n_times" (Val.i (t0.2.2 : Int))
        ({ c with _description := df }, Except.ok df)

/-- The distinct values of a column in first-occurrence order.  (pandas
`groupby` sorts the group keys; no theorem below depends on the key order,
only on which keys and groups exist.) -/
def distinctFirstAux (seen : List Val) : List Val → List Val
  | [] => []
  | v :: vs =>
    if v ∈ seen then distinctFirstAux seen vs
    else v :: distinctFirstAux (v :: seen) vs

def distinctFirst (vs : List Val) : List Val := distinctFirstAux [] vs

/-- The positional indices of the rows carrying value `v`, in row order:
one group of `df.groupby(p).groups`. -/
def indicesOf (vs : List Val) (v : Val) : List Nat :=
  (List.range vs.length).filter (fun j => vs.getD j (Val.i 0) = v)

/-- `{k: list(v) for k, v in df.groupby(p).groups.items()}`: `none` is the
`KeyError` of grouping by an absent column. -/
def groupbyGroups (df : DataFrame) (p : String) : Option (List (Val × List Nat)) :=
  (df.mapM (fun r => getVal? r p)).map
    (fun vs => (distinctFirst vs).map (fun v => (v, indicesOf vs v)))

/-- A key of the dictionary returned by `split`: a field value when grouping
by a property, a position when grouping by explicit ids. -/
inductive SplitKey where
  | prop : Val → SplitKey
  | idx : Nat → SplitKey
deriving DecidableEq, Repr

/-- `[self.datasets[ds_ind] for ds_ind in ds_inds]`: `none` is the
`IndexError` of an out-of-range id. -/
def selectChildren (datasets : List DS) : List Nat → Option (List DS)
  | [] => some []
  | j :: rest =>
    match datasets.get? j, selectChildren datasets rest with
    | some d, some tl => some (d :: tl)
    | _, _ => none

/-- The dictionary comprehension closing `split`: one fresh
`BaseConcatDataset` per group, built in group order; any raised error aborts
the whole call. -/
def buildSplits (datasets : List DS) :
    List (SplitKey × List Nat) → Except String (List (SplitKey × BaseConcatDataset))
  | [] => Except.ok []
  | (k, inds) :: rest =>
    match selectChildren datasets inds with
    | none => Except.error "IndexError: list index out of range"
    | some children =>
      match BaseConcatDataset.make children with
      | Except.error e => Except.error e
      | Except.ok cc =>
        match buildSplits datasets rest with
        | Except.error e => Except.error e
        | Except.ok tl => Except.ok ((k, cc) :: tl)

/-- `BaseConcatDataset.split(some_property, split_ids)`.  With neither
argument it raises; with `split_ids` absent it groups the aggregated
description (read through the property getter) by the given column; with
`split_ids` present it enumerates the given index lists, ignoring
`some_property` entirely.  The getter's in-place refresh of the parent on
the group-by path does not affect the returned splits and is dropped
here. -/
def BaseConcatDataset.split (c : BaseConcatDataset) (some_property : Option String)
    (split_ids : Option (List (List Nat))) :
    Except String (List (SplitKey × BaseConcatDataset)) :=
  match split_ids, some_property with
  | none, none => Except.error "Splitting requires defining ids or a property."
  | none, some p =>
    match (c.descriptionRead).2 with
    | Except.error e => Except.error e
    | Except.ok df =>
      match groupbyGroups df p with
      | none => Except.error ("KeyError: " ++ p)
      | some gs =>
        buildSplits ((c.descriptionRead).1).datasets
          (gs.map (fun g => (SplitKey.prop g.1, g.2)))
  | some ids, _ =>
    buildSplits c.datasets ((ids.enum).map (fun g => (SplitKey.idx g.1, g.2)))

/-- `Except` success test, for stating counterexamples. -/
def isOkB {ε α : Type} : Except ε α → Bool
  | Except.ok _ => true
  | Except.error _ => false

/-- A default child, used only as the (never reached) `getD` fallback. -/
def dsDefault : DS :=
  DS.base { raw := { sfreq := 0, ch_names := [], samples := [] },
            _description := [], target := none }

/-- Extract the value of a successful `Except`, with a fallback. -/
def okD {ε α : Type} (x : Except ε α) (d : α) : α :=
  match x with
  | Except.ok v => v
  | Except.error _ => d

/-! Concrete instances used by the witness theorems. -/

def exRaw1 : Raw := { sfreq := 100, ch_names := ["C3", "C4"], samples := [[1, 2], [3, 4]] }

def exRaw2 : Raw := { sfreq := 100, ch_names := ["C3", "C4"], samples := [[5, 6]] }

def exBD1 : BaseDataset := { raw := exRaw1, _description := [("subject", Val.i 1)], target := none }

def exBD2 : BaseDataset := { raw := exRaw2, _description := [("subject", Val.i 2)], target := none }

def exL : List DS := [DS.base exBD1, DS.base exBD2]

def exConcat : BaseConcatDataset := okD (BaseConcatDataset.make exL) { datasets := [], _description := [] }

/-- Three raw children with identical dimensions and subjects `1, 2, 1`,
for the split theorems. -/
def exRawP (off : Int) : Raw := { sfreq := 100, ch_names := ["C3", "C4"], samples := [[off, off + 1], [off + 2, off + 3]] }

def exBDP1 : BaseDataset := { raw := exRawP 10, _description := [("subject", Val.i 1)], target := none }

def exBDP2 : BaseDataset := { raw := exRawP 20, _description := [("subject", Val.i 2)], target := none }

def exBDP3 : BaseDataset := { raw := exRawP 30, _description := [("subject", Val.i 1)], target := none }

def exLP : List DS := [DS.base exBDP1, DS.base exBDP2, DS.base exBDP3]

def exConcatP : BaseConcatDataset := okD (BaseConcatDataset.make exLP) { datasets := [], _description := [] }

def exDFP : DataFrame := okD (exConcatP.descriptionRead).2 []

def exVSP : List Val := (exDFP.mapM (fun r => getVal? r "subject")).getD []

/-- A raw child whose sampling rate disagrees with `exRaw1`. -/
def exRawBad : Raw := { sfreq := 200, ch_names := ["C3", "C4"], samples := [[7, 8], [9, 10]] }

def exBDBad : BaseDataset := { raw := exRawBad, _description := [("subject", Val.i 3)], target := none }

def exConcatBad : BaseConcatDataset := okD (BaseConcatDataset.make [DS.base exBD1, DS.base exBDBad]) { datasets := [], _description := [] }

def exEp1 : Epochs :=
  { sfreq := 100, ch_names := ["C3"], times := [0, 1], events := [1, 2],
    data := [[[1, 2]], [[3, 4]]],
    metadata := [{ target := Val.i 0, i_supercrop_in_trial := 0, i_start_in_trial := 0, i_stop_in_trial := 2 },
                 { target := Val.i 1, i_supercrop_in_trial := 1, i_start_in_trial := 2, i_stop_in_trial := 4 }] }

/-- A windowed child whose window length (`len(times)`) disagrees with
`exEp1` while sampling rate and channel count agree. -/
def exEp2 : Epochs :=
  { sfreq := 100, ch_names := ["C3"], times := [0, 1, 2], events := [3],
    data := [[[5, 6, 7]]],
    metadata := [{ target := Val.i 0, i_supercrop_in_trial := 0, i_start_in_trial := 0, i_stop_in_trial := 3 }] }

def exWD1 : WindowsDataset := WindowsDataset.make exEp1 [("subject", Val.i 1)]

def exWD2 : WindowsDataset := WindowsDataset.make exEp2 [("subject", Val.i 2)]

def exConcatW : BaseConcatDataset :=
  okD (BaseConcatDataset.make [DS.windows exWD1, DS.windows exWD2]) { datasets := [], _description := [] }

/-! Association-list lemmas about `setVal`, `getVal?` and `hasKey`. -/

theorem find?_replaceAll_self (k : String) (v : Val) :
    ∀ s : Series, s.any (fun p => p.1 = k) = true →
      (s.map (fun p => if p.1 = k then (k, v) else p)).find? (fun p => p.1 = k) = some (k, v) := by
  intro s
  induction s with
  | nil => intro h; simp at h
  | cons p t ih =>
    intro h
    by_cases hp : p.1 = k
    · simp [hp]
    · have ht : t.any (fun q => q.1 = k) = true := by simpa [hp] using h
      simpa [hp] using ih ht

theorem getVal?_setVal_self (s : Series) (k : String) (v : Val) :
    getVal? (setVal s k v) k = some v := by
  unfold getVal? setVal
  by_cases h : s.any (fun p => p.1 = k)
  · rw [if_pos h, find?_replaceAll_self k v s h]
    rfl
  · rw [if_neg h, List.find?_append]
    have hn : s.find? (fun p => p.1 = k) = none := by
      rw [List.find?_eq_none]
      intro x hx hpx
      exact h (List.any_eq_true.mpr ⟨x, hx, hpx⟩)
    rw [hn]
    simp

theorem find?_replaceAll_ne (k k2 : String) (v : Val) (h : k2 ≠ k) :
    ∀ s : Series,
      (s.map (fun p => if p.1 = k then (k, v) else p)).find? (fun p => p.1 = k2)
        = s.find? (fun p => p.1 = k2) := by
  intro s
  induction s with
  | nil => rfl
  | cons p t ih =>
    rw [List.map_cons]
    by_cases hp : p.1 = k
    · rw [if_pos hp,
        List.find?_cons_of_neg _ (by simp only [decide_eq_true_eq]; exact h.symm),
        List.find?_cons_of_neg _ (by simp only [hp, decide_eq_true_eq]; exact h.symm)]
      exact ih
    · rw [if_neg hp]
      by_cases hp2 : p.1 = k2
      · rw [List.find?_cons_of_pos _ (by simpa using hp2),
          List.find?_cons_of_pos _ (by simpa using hp2)]
      · rw [List.find?_cons_of_neg _ (by simpa using hp2),
          List.find?_cons_of_neg _ (by simpa using hp2)]
        exact ih

theorem getVal?_setVal_ne (s : Series) (k k2 : String) (v : Val) (h : k2 ≠ k) :
    getVal? (setVal s k v) k2 = getVal? s k2 := by
  unfold getVal? setVal
  by_cases ha : s.any (fun p => p.1 = k)
  · rw [if_pos ha, find?_replaceAll_ne k k2 v h s]
  · rw [if_neg ha, List.find?_append]
    have h1 : (([(k, v)] : Series)).find? (fun p => p.1 = k2) = none := by
      rw [List.find?_eq_none]
      intro x hx
      have hx2 : x = (k, v) := by simpa using hx
      subst hx2
      simp only [decide_eq_true_eq]
      exact h.symm
    rw [h1]
    cases s.find? (fun p => p.1 = k2) <;> rfl

theorem hasKey_setVal_self (s : Series) (k : String) (v : Val) :
    hasKey (setVal s k v) k = true := by
  unfold hasKey setVal
  by_cases ha : s.any (fun p => p.1 = k)
  · rw [if_pos ha]
    rcases List.any_eq_true.mp ha with ⟨x, hx, hpx⟩
    refine List.any_eq_true.mpr ⟨if x.1 = k then (k, v) else x, List.mem_map_of_mem _ hx, ?_⟩
    have hxk : x.1 = k := by simpa using hpx
    rw [if_pos hxk]
    simp
  · rw [if_neg ha]
    exact List.any_eq_true.mpr ⟨(k, v), by simp, by simp⟩

theorem any_replaceAll_ne (k k2 : String) (v : Val) (h : k2 ≠ k) :
    ∀ s : Series,
      (s.map (fun p => if p.1 = k then (k, v) else p)).any (fun p => p.1 = k2)
        = s.any (fun p => p.1 = k2) := by
  intro s
  induction s with
  | nil => rfl
  | cons p t ih =>
    by_cases hp : p.1 = k
    · have h1 : ¬ ((k, v).1 = k2) := h.symm
      have h2 : ¬ (p.1 = k2) := by rw [hp]; exact h.symm
      simp [hp, h1, h2, ih]
    · simp [hp, ih]

theorem hasKey_setVal_ne (s : Series) (k k2 : String) (v : Val) (h : k2 ≠ k) :
    hasKey (setVal s k v) k2 = hasKey s k2 := by
  unfold hasKey setVal
  by_cases ha : s.any (fun p => p.1 = k)
  · rw [if_pos ha, any_replaceAll_ne k k2 v h s]
  · rw [if_neg ha]
    have h1 : ¬ ((k, v).1 = k2) := h.symm
    simp [List.any_append, h1]

theorem entries_setVal_self (s : Series) (k : String) (v : Val) :
    ∀ p ∈ setVal s k v, p.1 = k → p = (k, v) := by
  intro p hp hpk
  unfold setVal at hp
  by_cases ha : s.any (fun q => q.1 = k)
  · rw [if_pos ha] at hp
    rcases List.mem_map.mp hp with ⟨q, _, hq⟩
    subst hq
    by_cases hqk : q.1 = k
    · rw [if_pos hqk]
    · rw [if_neg hqk] at hpk ⊢
      exact absurd hpk hqk
  · rw [if_neg ha] at hp
    rcases List.mem_append.mp hp with hin | hin
    · exact absurd (List.any_eq_true.mpr ⟨p, hin, by simpa using hpk⟩) ha
    · simpa using hin

theorem entries_setVal_ne (s : Series) (k k2 : String) (v w : Val) (h : k2 ≠ k)
    (hs : ∀ p ∈ s, p.1 = k → p = (k, v)) :
    ∀ p ∈ setVal s k2 w, p.1 = k → p = (k, v) := by
  intro p hp hpk
  unfold setVal at hp
  by_cases ha : s.any (fun q => q.1 = k2)
  · rw [if_pos ha] at hp
    rcases List.mem_map.mp hp with ⟨q, hqmem, hq⟩
    subst hq
    by_cases hqk2 : q.1 = k2
    · rw [if_pos hqk2] at hpk ⊢
      exact absurd hpk h
    · rw [if_neg hqk2] at hpk ⊢
      exact hs q hqmem hpk
  · rw [if_neg ha] at hp
    rcases List.mem_append.mp hp with hin | hin
    · exact hs p hin hpk
    · have hx : p = (k2, w) := by simpa using hin
      subst hx
      exact absurd hpk h

theorem hasKey_setVal_of_hasKey (s : Series) (k k2 : String) (w : Val)
    (h : hasKey s k = true) : hasKey (setVal s k2 w) k = true := by
  by_cases hkk : k = k2
  · subst hkk
    exact hasKey_setVal_self s k w
  · rw [hasKey_setVal_ne s k2 k w hkk]
    exact h

theorem setVal_eq_self (s : Series) (k : String) (v : Val)
    (hk : hasKey s k = true) (hs : ∀ p ∈ s, p.1 = k → p = (k, v)) :
    setVal s k v = s := by
  unfold hasKey at hk
  unfold setVal
  rw [if_pos hk]
  have : ∀ p ∈ s, (if p.1 = k then (k, v) else p) = id p := by
    intro p hp
    by_cases hpk : p.1 = k
    · rw [if_pos hpk, hs p hp hpk]
      rfl
    · rw [if_neg hpk]
      rfl
  rw [List.map_congr_left this, List.map_id]

theorem refreshSeries_idem (s : Series) (a b : Val) :
    refreshSeries (refreshSeries s a b) a b = refreshSeries s a b := by
  have hne : ("n_channels" : String) ≠ "sfreq" := by decide
  have h1 : hasKey (refreshSeries s a b) "sfreq" = true :=
    hasKey_setVal_of_hasKey _ _ _ _ (hasKey_setVal_self s "sfreq" a)
  have h2 : ∀ p ∈ refreshSeries s a b, p.1 = "sfreq" → p = ("sfreq", a) :=
    entries_setVal_ne _ _ _ _ _ hne (entries_setVal_self s "sfreq" a)
  have step1 : setVal (refreshSeries s a b) "sfreq" a = refreshSeries s a b :=
    setVal_eq_self _ _ _ h1 h2
  have h3 : hasKey (refreshSeries s a b) "n_channels" = true :=
    hasKey_setVal_self _ "n_channels" b
  have h4 : ∀ p ∈ refreshSeries s a b, p.1 = "n_channels" → p = ("n_channels", b) :=
    entries_setVal_self _ "n_channels" b
  have step2 : setVal (refreshSeries s a b) "n_channels" b = refreshSeries s a b :=
    setVal_eq_self _ _ _ h3 h4
  show setVal (setVal (refreshSeries s a b) "sfreq" a) "n_channels" b = refreshSeries s a b
  rw [step1, step2]

theorem getVal?_refreshSeries_sfreq (s : Series) (a b : Val) :
    getVal? (refreshSeries s a b) "sfreq" = some a := by
  unfold refreshSeries
  rw [getVal?_setVal_ne _ _ _ _ (by decide), getVal?_setVal_self]

theorem getVal?_refreshSeries_nch (s : Series) (a b : Val) :
    getVal? (refreshSeries s a b) "n_channels" = some b := by
  unfold refreshSeries
  rw [getVal?_setVal_self]

theorem getVal?_refreshSeries_other (s : Series) (a b : Val) (k : String)
    (h1 : k ≠ "sfreq") (h2 : k ≠ "n_channels") :
    getVal? (refreshSeries s a b) k = getVal? s k := by
  unfold refreshSeries
  rw [getVal?_setVal_ne _ _ _ _ h2, getVal?_setVal_ne _ _ _ _ h1]

theorem hasKey_refreshSeries_other (s : Series) (a b : Val) (k : String)
    (h1 : k ≠ "sfreq") (h2 : k ≠ "n_channels") :
    hasKey (refreshSeries s a b) k = hasKey s k := by
  unfold refreshSeries
  rw [hasKey_setVal_ne _ _ _ _ h2, hasKey_setVal_ne _ _ _ _ h1]

/-! Dataset-level consequences of the Series lemmas. -/

theorem base_read_snd (d : BaseDataset) :
    (d.descriptionRead).2
      = refreshSeries d._description (Val.i d.raw.sfreq) (Val.i (d.raw.ch_names.length : Int)) := rfl

theorem windows_read_snd (w : WindowsDataset) :
    (w.descriptionRead).2
      = refreshSeries w._description (Val.i w.windows.sfreq) (Val.i (w.windows.ch_names.length : Int)) := rfl

theorem base_descriptionRead_idem (d : BaseDataset) :
    ((d.descriptionRead).1).descriptionRead = d.descriptionRead := by
  cases d with
  | mk raw desc tgt => simp [BaseDataset.descriptionRead, refreshSeries_idem]

theorem windows_descriptionRead_idem (w : WindowsDataset) :
    ((w.descriptionRead).1).descriptionRead = w.descriptionRead := by
  cases w with
  | mk ep desc => simp [WindowsDataset.descriptionRead, refreshSeries_idem]

theorem ds_descriptionRead_idem (d : DS) :
    DS.descriptionRead ((DS.descriptionRead d).1) = DS.descriptionRead d := by
  cases d with
  | base b => simp [DS.descriptionRead, base_descriptionRead_idem]
  | windows w => simp [DS.descriptionRead, windows_descriptionRead_idem]

theorem ds_len_descriptionRead (d : DS) :
    DS.len ((DS.descriptionRead d).1) = DS.len d := by
  cases d <;> rfl

/-- Claim C2: every read of the `description` property of a `BaseDataset`
or a `WindowsDataset` first writes the backing recording's current sampling
rate (`sfreq`) and channel count (`n_channels`) into the stored row and
returns that same live internal row (the returned row is the stored row of
the post-read state), the returned values match the backing recording even
after the recording object is replaced in place, and external mutation of
the returned row is visible to subsequent reads. -/
theorem description_read_is_live_and_fresh (d : BaseDataset) (w : WindowsDataset) :
    (getVal? (d.descriptionRead).2 "sfreq" = some (Val.i d.raw.sfreq)
      ∧ getVal? (d.descriptionRead).2 "n_channels" = some (Val.i (d.raw.ch_names.length : Int))
      ∧ ((d.descriptionRead).1)._description = (d.descriptionRead).2
      ∧ (∀ r : Raw,
          getVal? ((({ d with raw := r } : BaseDataset)).descriptionRead).2 "sfreq"
              = some (Val.i r.sfreq)
            ∧ getVal? ((({ d with raw := r } : BaseDataset)).descriptionRead).2 "n_channels"
              = some (Val.i (r.ch_names.length : Int)))
      ∧ (∀ k v, k ≠ "sfreq" → k ≠ "n_channels" →
          getVal? ((({ (d.descriptionRead).1 with
              _description := setVal (d.descriptionRead).2 k v } : BaseDataset)).descriptionRead).2 k
            = some v))
    ∧ (getVal? (w.descriptionRead).2 "sfreq" = some (Val.i w.windows.sfreq)
      ∧ getVal? (w.descriptionRead).2 "n_channels" = some (Val.i (w.windows.ch_names.length : Int))
      ∧ ((w.descriptionRead).1)._description = (w.descriptionRead).2
      ∧ (∀ e : Epochs,
          getVal? ((({ w with windows := e } : WindowsDataset)).descriptionRead).2 "sfreq"
              = some (Val.i e.sfreq)
            ∧ getVal? ((({ w with windows := e } : WindowsDataset)).descriptionRead).2 "n_channels"
              = some (Val.i (e.ch_names.length : Int)))
      ∧ (∀ k v, k ≠ "sfreq" → k ≠ "n_channels" →
          getVal? ((({ (w.descriptionRead).1 with
              _description := setVal (w.descriptionRead).2 k v } : WindowsDataset)).descriptionRead).2 k
            = some v)) := by
  refine ⟨⟨?_, ?_, rfl, ?_, ?_⟩, ?_, ?_, rfl, ?_, ?_⟩
  · rw [base_read_snd, getVal?_refreshSeries_sfreq]
  · rw [base_read_snd, getVal?_refreshSeries_nch]
  · intro r
    exact ⟨by rw [base_read_snd, getVal?_refreshSeries_sfreq],
      by rw [base_read_snd, getVal?_refreshSeries_nch]⟩
  · intro k v h1 h2
    rw [base_read_snd, getVal?_refreshSeries_other _ _ _ _ h1 h2, getVal?_setVal_self]
  · rw [windows_read_snd, getVal?_refreshSeries_sfreq]
  · rw [windows_read_snd, getVal?_refreshSeries_nch]
  · intro e
    exact ⟨by rw [windows_read_snd, getVal?_refreshSeries_sfreq],
      by rw [windows_read_snd, getVal?_refreshSeries_nch]⟩
  · intro k v h1 h2
    rw [windows_read_snd, getVal?_refreshSeries_other _ _ _ _ h1 h2, getVal?_setVal_self]

theorem description_read_is_live_and_fresh_witness :
    getVal? (exBD1.descriptionRead).2 "sfreq" = some (Val.i exBD1.raw.sfreq)
    ∧ getVal? ((({ (exBD1.descriptionRead).1 with
        _description := setVal (exBD1.descriptionRead).2 "subject" (Val.i 9) } : BaseDataset)).descriptionRead).2
        "subject" = some (Val.i 9)
    ∧ getVal? ((({ exWD1 with windows := exEp2 } : WindowsDataset)).descriptionRead).2 "sfreq"
        = some (Val.i exEp2.sfreq) := by
  have h := description_read_is_live_and_fresh exBD1 exWD1
  exact ⟨h.1.1, h.1.2.2.2.2 "subject" (Val.i 9) (by decide) (by decide),
    (h.2.2.2.2.1 exEp2).1⟩

/-- Claim C3: constructing a `BaseDataset` with a target name that is not a
key of its (refreshed) single-row description fails with a `ValueError`
naming the missing field and constructs no dataset; a present name fixes
the target to the field's value; no requested name gives target `None`;
and the target is never changed by later description reads. -/
theorem base_make_target_validation (raw : Raw) (desc : Series) :
    (∀ t, hasKey ((({ raw := raw, _description := desc, target := none } : BaseDataset)).descriptionRead).2 t = false →
        BaseDataset.make raw desc (some t) = Except.error (t ++ " not in description."))
    ∧ (∀ t, t ≠ "sfreq" → t ≠ "n_channels" → hasKey desc t = false →
        BaseDataset.make raw desc (some t) = Except.error (t ++ " not in description."))
    ∧ (∀ t, hasKey ((({ raw := raw, _description := desc, target := none } : BaseDataset)).descriptionRead).2 t = true →
        ∃ d, BaseDataset.make raw desc (some t) = Except.ok d
          ∧ d.target = getVal? ((({ raw := raw, _description := desc, target := none } : BaseDataset)).descriptionRead).2 t
          ∧ d.raw = raw)
    ∧ BaseDataset.make raw desc none
        = Except.ok { raw := raw, _description := desc, target := none }
    ∧ (∀ d : BaseDataset, ((d.descriptionRead).1).target = d.target) := by
  refine ⟨?_, ?_, ?_, rfl, fun d => rfl⟩
  · intro t ht
    unfold BaseDataset.make
    dsimp only
    rw [if_neg (by rw [ht]; simp)]
  · intro t h1 h2 ht
    unfold BaseDataset.make
    dsimp only
    rw [if_neg ?_]
    rw [base_read_snd, hasKey_refreshSeries_other _ _ _ _ h1 h2, ht]
    simp
  · intro t ht
    unfold BaseDataset.make
    dsimp only
    rw [if_pos (by rw [ht])]
    refine ⟨_, rfl, ?_, rfl⟩
    have hidem := base_descriptionRead_idem
      ({ raw := raw, _description := desc, target := none } : BaseDataset)
    simp only [hidem]

theorem base_make_target_validation_witness :
    BaseDataset.make exRaw1 [("subject", Val.i 1)] (some "age")
        = Except.error ("age" ++ " not in description.")
    ∧ (∃ d, BaseDataset.make exRaw1 [("subject", Val.i 1)] (some "subject") = Except.ok d
        ∧ d.target = getVal? ((({ raw := exRaw1, _description := [("subject", Val.i 1)], target := none } : BaseDataset)).descriptionRead).2 "subject"
        ∧ d.raw = exRaw1)
    ∧ BaseDataset.make exRaw1 [("subject", Val.i 1)] none
        = Except.ok { raw := exRaw1, _description := [("subject", Val.i 1)], target := none } := by
  have h := base_make_target_validation exRaw1 [("subject", Val.i 1)]
  exact ⟨h.1 "age" (by decide), h.2.2.1 "subject" (by decide), h.2.2.2.1⟩

/-- Claim C9: for a `WindowsDataset` whose backend lists line up with its
event count, `get(i)` at every valid index returns the triple (segment data
at `i`, the `target` field of segment `i`'s metadata row, the list
`[window index, start sample, stop sample]` of that row), and the length
equals the number of segments (the event count). -/
theorem windows_indexing_contract (w : WindowsDataset)
    (hd : w.windows.data.length = w.windows.events.length)
    (hm : w.windows.metadata.length = w.windows.events.length) :
    w.len = w.windows.events.length
    ∧ ∀ i, i < w.len → ∃ x md,
        w.windows.data.get? i = some x
        ∧ w.windows.metadata.get? i = some md
        ∧ w.getitem i = some (x, md.target,
            [md.i_supercrop_in_trial, md.i_start_in_trial, md.i_stop_in_trial]) := by
  constructor
  · rfl
  · intro i hi
    have hie : i < w.windows.events.length := hi
    have hdi : i < w.windows.data.length := by rw [hd]; exact hie
    have hmi : i < w.windows.metadata.length := by rw [hm]; exact hie
    refine ⟨w.windows.data.get ⟨i, hdi⟩, w.windows.metadata.get ⟨i, hmi⟩,
      List.get?_eq_get hdi, List.get?_eq_get hmi, ?_⟩
    unfold WindowsDataset.getitem
    rw [List.get?_eq_get hdi, List.get?_eq_get hmi]

theorem windows_indexing_contract_witness :
    exWD1.len = exWD1.windows.events.length
    ∧ (∃ x md, exWD1.windows.data.get? 1 = some x
        ∧ exWD1.windows.metadata.get? 1 = some md
        ∧ exWD1.getitem 1 = some (x, md.target,
            [md.i_supercrop_in_trial, md.i_start_in_trial, md.i_stop_in_trial])) := by
  have h := windows_indexing_contract exWD1 (by decide) (by decide)
  exact ⟨h.1, h.2 1 (by decide)⟩

/-! Cumulative-size and bisection lemmas for the torch `ConcatDataset`
indexing machinery. -/

theorem cumsumAux_map (l : List Nat) :
    ∀ acc : Nat, cumsumAux acc l = (cumsumAux 0 l).map (fun y => acc + y) := by
  induction l with
  | nil => intro acc; rfl
  | cons x xs ih =>
    intro acc
    show (acc + x) :: cumsumAux (acc + x) xs
      = ((0 + x) :: cumsumAux (0 + x) xs).map (fun y => acc + y)
    rw [List.map_cons, ih (acc + x), ih (0 + x), List.map_map]
    refine congrArg₂ List.cons (by omega) ?_
    exact List.map_congr_left (fun y _ => by simp only [Function.comp_apply]; omega)

theorem cumsum_cons (x : Nat) (xs : List Nat) :
    cumsum (x :: xs) = x :: (cumsum xs).map (fun y => x + y) := by
  show (0 + x) :: cumsumAux (0 + x) xs = _
  rw [cumsumAux_map xs (0 + x), Nat.zero_add]
  rfl

theorem cumsum_length (l : List Nat) : (cumsum l).length = l.length := by
  induction l with
  | nil => rfl
  | cons x xs ih =>
    rw [cumsum_cons]
    simp [ih]

theorem cumsum_le_sum (l : List Nat) : ∀ y ∈ cumsum l, y ≤ l.sum := by
  induction l with
  | nil => intro y hy; simp [cumsum, cumsumAux] at hy
  | cons x xs ih =>
    intro y hy
    rw [cumsum_cons] at hy
    rcases List.mem_cons.mp hy with h | h
    · subst h
      simp
    · rcases List.mem_map.mp h with ⟨z, hz, hzy⟩
      subst hzy
      have hzs := ih z hz
      simp only [List.sum_cons]
      omega

theorem bisectRight_cumsum_ge (l : List Nat) (x : Nat) (h : l.sum ≤ x) :
    bisectRight (cumsum l) x = l.length := by
  unfold bisectRight
  rw [← cumsum_length l]
  apply List.countP_eq_length.mpr
  intro y hy
  simp only [decide_eq_true_eq]
  exact le_trans (cumsum_le_sum l y hy) h

theorem resolve_bisect (lens : List Nat) :
    ∀ i, i < lens.sum →
      ∃ k j, specResolve lens i = some (k, j)
        ∧ bisectRight (cumsum lens) i = k
        ∧ (if k = 0 then i else i - (cumsum lens).getD (k - 1) 0) = j
        ∧ k < lens.length := by
  induction lens with
  | nil => intro i hi; simp at hi
  | cons l ls ih =>
    intro i hi
    by_cases hil : i < l
    · refine ⟨0, i, ?_, ?_, by simp, by simp⟩
      · unfold specResolve
        rw [if_pos hil]
      · rw [cumsum_cons]
        unfold bisectRight
        rw [List.countP_cons]
        have hhead : (decide (l ≤ i)) = false := by
          simp only [decide_eq_false_iff_not]
          omega
        have htail : ((cumsum ls).map (fun y => l + y)).countP (fun a => a ≤ i) = 0 := by
          apply List.countP_eq_zero.mpr
          intro a ha
          rcases List.mem_map.mp ha with ⟨z, _, hza⟩
          subst hza
          simp only [decide_eq_true_eq]
          omega
        rw [htail, hhead]
        simp
    · have hsum : i - l < ls.sum := by
        simp only [List.sum_cons] at hi
        omega
      obtain ⟨k2, j, hres, hbis, hloc, hklen⟩ := ih (i - l) hsum
      refine ⟨k2 + 1, j, ?_, ?_, ?_, by simpa using Nat.succ_lt_succ hklen⟩
      · unfold specResolve
        rw [if_neg hil, hres]
        rfl
      · rw [cumsum_cons]
        unfold bisectRight
        rw [List.countP_cons]
        have hhead : (decide (l ≤ i)) = true := by
          simp only [decide_eq_true_eq]
          omega
        have htail : ((cumsum ls).map (fun y => l + y)).countP (fun a => a ≤ i)
            = (cumsum ls).countP (fun a => a ≤ i - l) := by
          rw [List.countP_map]
          apply List.countP_congr
          intro z _
          simp only [Function.comp_apply, decide_eq_true_eq]
          omega
        have hbis2 : (cumsum ls).countP (fun a => a ≤ i - l) = k2 := hbis
        rw [htail, hbis2, hhead]
        simp
      · rw [cumsum_cons]
        rw [if_neg (Nat.succ_ne_zero k2)]
        have hidx : k2 + 1 - 1 = k2 := by omega
        rw [hidx]
        cases k2 with
        | zero =>
          rw [List.getD_cons_zero]
          rw [if_pos rfl] at hloc
          exact hloc
        | succ m =>
          rw [List.getD_cons_succ]
          have hmC : m < (cumsum ls).length := by
            rw [cumsum_length]
            omega
          have hget : ((cumsum ls).map (fun y => l + y)).getD m 0
              = l + (cumsum ls).getD m 0 := by
            rw [List.getD_eq_get?, List.getD_eq_get?, List.get?_map,
              List.get?_eq_get hmC]
            rfl
          rw [hget]
          rw [if_neg (Nat.succ_ne_zero m)] at hloc
          have hidx2 : m + 1 - 1 = m := by omega
          rw [hidx2] at hloc
          omega

theorem lastD_cumsumAux (l : List Nat) :
    ∀ acc, lastD (cumsumAux acc l) acc = acc + l.sum := by
  induction l with
  | nil => intro acc; simp [cumsumAux, lastD]
  | cons x xs ih =>
    intro acc
    show lastD (cumsumAux (acc + x) xs) (acc + x) = acc + (x :: xs).sum
    rw [ih (acc + x)]
    simp only [List.sum_cons]
    omega

theorem concat_len_sum (c : BaseConcatDataset) :
    c.len = (c.datasets.map DS.len).sum := by
  unfold BaseConcatDataset.len cumsum
  rw [lastD_cumsumAux]
  omega

theorem make_ok (l : List DS) (h : l ≠ []) :
    BaseConcatDataset.make l = Except.ok
      { datasets := l.map (fun d => (DS.descriptionRead d).1),
        _description := l.map (fun d => (DS.descriptionRead d).2) } := by
  cases l with
  | nil => exact absurd rfl h
  | cons a t => rfl

theorem make_ok_inv (l : List DS) (c : BaseConcatDataset)
    (h : BaseConcatDataset.make l = Except.ok c) :
    l ≠ [] ∧ c.datasets = l.map (fun d => (DS.descriptionRead d).1)
      ∧ c._description = l.map (fun d => (DS.descriptionRead d).2) := by
  cases l with
  | nil => simp [BaseConcatDataset.make] at h
  | cons a t =>
    rw [make_ok (a :: t) (by simp)] at h
    injection h with h2
    exact ⟨by simp, by rw [← h2], by rw [← h2]⟩

/-- Claim C1: for every `BaseConcatDataset` built from a non-empty list of
children, `length()` equals the sum of the children's lengths; for every
global index `i` below the total, `get(i)` returns exactly
`child[local_index]` where `(child_index, local_index)` is given by
prefix-sum resolution over the children's lengths in order; and
`get(length())` fails with an index error (`none`). -/
theorem concat_indexing (l : List DS) (c : BaseConcatDataset)
    (h : BaseConcatDataset.make l = Except.ok c) :
    c.len = (l.map DS.len).sum
    ∧ (∀ i, i < (l.map DS.len).sum →
        ∃ k j, specResolve (l.map DS.len) i = some (k, j)
          ∧ c.getitem i = (c.datasets.get? k).bind (fun d => DS.getitem d j))
    ∧ c.getitem ((l.map DS.len).sum) = none := by
  obtain ⟨hne, hds, _⟩ := make_ok_inv l c h
  have hlens : c.datasets.map DS.len = l.map DS.len := by
    rw [hds, List.map_map]
    exact List.map_congr_left (fun d _ => ds_len_descriptionRead d)
  refine ⟨?_, ?_, ?_⟩
  · rw [concat_len_sum, hlens]
  · intro i hi
    obtain ⟨k, j, hres, hbis, hloc, hklen⟩ := resolve_bisect (l.map DS.len) i hi
    refine ⟨k, j, hres, ?_⟩
    unfold BaseConcatDataset.getitem
    dsimp only
    rw [hlens, hbis]
    have hk : k < c.datasets.length := by
      rw [hds]
      simpa using hklen
    rw [List.get?_eq_get hk, hloc]
    rfl
  · unfold BaseConcatDataset.getitem
    dsimp only
    rw [hlens, bisectRight_cumsum_ge _ _ (le_refl _)]
    have hnone : c.datasets.get? ((l.map DS.len).length) = none := by
      apply List.get?_eq_none.mpr
      rw [hds]
      simp
    rw [hnone]

theorem concat_indexing_witness :
    exConcat.len = (exL.map DS.len).sum
    ∧ (∃ k j, specResolve (exL.map DS.len) 2 = some (k, j)
        ∧ exConcat.getitem 2 = (exConcat.datasets.get? k).bind (fun d => DS.getitem d j))
    ∧ exConcat.getitem ((exL.map DS.len).sum) = none := by
  have h := concat_indexing exL exConcat rfl
  exact ⟨h.1, h.2.1 2 (by decide), h.2.2⟩

/-! Lemmas about `selectChildren`, `buildSplits` and `List.enum`. -/

theorem getD_eq_get_of_lt (datasets : List DS) (j : Nat) (hj : j < datasets.length) :
    datasets.getD j dsDefault = datasets.get ⟨j, hj⟩ := by
  rw [List.getD_eq_get?, List.get?_eq_get hj]
  rfl

theorem selectChildren_ok (datasets : List DS) :
    ∀ inds : List Nat, (∀ j ∈ inds, j < datasets.length) →
      selectChildren datasets inds
        = some (inds.map (fun j => datasets.getD j dsDefault)) := by
  intro inds
  induction inds with
  | nil => intro _; rfl
  | cons j rest ih =>
    intro h
    have hj : j < datasets.length := h j (by simp)
    have hrest := ih (fun x hx => h x (by simp [hx]))
    unfold selectChildren
    rw [List.get?_eq_get hj, hrest, List.map_cons, getD_eq_get_of_lt datasets j hj]

theorem buildSplits_ok (datasets : List DS) :
    ∀ groups : List (SplitKey × List Nat),
      (∀ g ∈ groups, g.2 ≠ [] ∧ ∀ j ∈ g.2, j < datasets.length) →
      buildSplits datasets groups = Except.ok (groups.map (fun g =>
        (g.1,
         ({ datasets := g.2.map (fun j => (DS.descriptionRead (datasets.getD j dsDefault)).1),
            _description := g.2.map (fun j => (DS.descriptionRead (datasets.getD j dsDefault)).2) }
          : BaseConcatDataset)))) := by
  intro groups
  induction groups with
  | nil => intro _; rfl
  | cons g rest ih =>
    intro h
    obtain ⟨hne, hrange⟩ := h g (by simp)
    have hrest := ih (fun x hx => h x (by simp [hx]))
    cases g with
    | mk key inds =>
      have hmk := make_ok (inds.map (fun j => datasets.getD j dsDefault))
        (by simpa using hne)
      unfold buildSplits
      rw [selectChildren_ok datasets inds hrange]
      dsimp only
      rw [hmk]
      dsimp only
      rw [hrest]
      dsimp only
      rw [List.map_map, List.map_map]
      rfl

theorem enumFrom_snd {α : Type} (l : List α) :
    ∀ n, (List.enumFrom n l).map Prod.snd = l := by
  induction l with
  | nil => intro n; rfl
  | cons x xs ih =>
    intro n
    rw [List.enumFrom_cons, List.map_cons, ih (n + 1)]

theorem enum_snd {α : Type} (l : List α) : (l.enum).map Prod.snd = l :=
  enumFrom_snd l 0

theorem enumFrom_fst {α : Type} (l : List α) :
    ∀ n, (List.enumFrom n l).map Prod.fst = (List.range l.length).map (fun i => n + i) := by
  induction l with
  | nil => intro n; rfl
  | cons x xs ih =>
    intro n
    rw [List.enumFrom_cons, List.map_cons, ih (n + 1)]
    show (n :: _ : List Nat) = _
    rw [List.length_cons, List.range_succ_eq_map, List.map_cons, List.map_map]
    refine congrArg₂ List.cons (by omega) ?_
    exact List.map_congr_left (fun i _ => by simp only [Function.comp_apply]; omega)

theorem enum_fst {α : Type} (l : List α) : (l.enum).map Prod.fst = List.range l.length := by
  have h := enumFrom_fst l 0
  simpa using h

/-- Claim C4 (counterexample): `split` called with BOTH a partition property
and explicit index groups does not raise — on a concrete concatenation it
returns a successful result, refuting the claim that providing both fails
with an invalid-argument error. -/
theorem split_both_given_succeeds :
    isOkB (BaseConcatDataset.split exConcat (some "subject") (some [[0]])) = true := by rfl

/-- Claim C4 (amended): `split` with neither a property nor explicit ids
fails with an invalid-argument error, but `split` with both provided does
not fail: it behaves exactly as if only the explicit ids were given, the
property being ignored. -/
theorem split_argument_validation (c : BaseConcatDataset) (p : String)
    (ids : List (List Nat)) :
    BaseConcatDataset.split c none none
        = Except.error "Splitting requires defining ids or a property."
    ∧ BaseConcatDataset.split c (some p) (some ids)
        = BaseConcatDataset.split c none (some ids) :=
  ⟨rfl, rfl⟩

theorem split_explicit_eq (c : BaseConcatDataset) (ids : List (List Nat))
    (hne : ∀ g ∈ ids, g ≠ [])
    (hrange : ∀ g ∈ ids, ∀ j ∈ g, j < c.datasets.length) :
    BaseConcatDataset.split c none (some ids)
      = Except.ok ((ids.enum).map (fun a =>
          (SplitKey.idx a.1,
           ({ datasets := a.2.map (fun j => (DS.descriptionRead (c.datasets.getD j dsDefault)).1),
              _description := a.2.map (fun j => (DS.descriptionRead (c.datasets.getD j dsDefault)).2) }
            : BaseConcatDataset)))) := by
  have hmain : BaseConcatDataset.split c none (some ids)
      = Except.ok (((ids.enum).map (fun g => (SplitKey.idx g.1, g.2))).map (fun g =>
          (g.1,
           ({ datasets := g.2.map (fun j => (DS.descriptionRead (c.datasets.getD j dsDefault)).1),
              _description := g.2.map (fun j => (DS.descriptionRead (c.datasets.getD j dsDefault)).2) }
            : BaseConcatDataset)))) := by
    show buildSplits c.datasets ((ids.enum).map (fun g => (SplitKey.idx g.1, g.2))) = _
    apply buildSplits_ok
    intro g hg
    rcases List.mem_map.mp hg with ⟨a, ha, hga⟩
    subst hga
    have ha2 : a.2 ∈ ids := by
      have hm := List.mem_map_of_mem Prod.snd ha
      rwa [enum_snd] at hm
    exact ⟨hne a.2 ha2, hrange a.2 ha2⟩
  rw [List.map_map] at hmain
  exact hmain

/-- Claim C6: `split` with an ordered sequence of index lists returns the
mapping keyed by list position whose value at position `k` is a freshly
built `BaseConcatDataset` holding exactly the children at the indices of
list `k`, in the order given; consequently each returned concatenation's
length is the sum of the lengths of the selected children. -/
theorem concat_split_explicit_groups (c : BaseConcatDataset) (ids : List (List Nat))
    (hne : ∀ g ∈ ids, g ≠ [])
    (hrange : ∀ g ∈ ids, ∀ j ∈ g, j < c.datasets.length) :
    BaseConcatDataset.split c none (some ids)
      = Except.ok ((ids.enum).map (fun a =>
          (SplitKey.idx a.1,
           ({ datasets := a.2.map (fun j => (DS.descriptionRead (c.datasets.getD j dsDefault)).1),
              _description := a.2.map (fun j => (DS.descriptionRead (c.datasets.getD j dsDefault)).2) }
            : BaseConcatDataset))))
    ∧ ∀ res, BaseConcatDataset.split c none (some ids) = Except.ok res →
        res.map Prod.fst = (List.range ids.length).map SplitKey.idx
        ∧ res.map (fun r => (r.2).len)
          = ids.map (fun g => (g.map (fun j => DS.len (c.datasets.getD j dsDefault))).sum) := by
  have hmain := split_explicit_eq c ids hne hrange
  refine ⟨hmain, ?_⟩
  intro res hres
  rw [hmain] at hres
  injection hres with hres2
  subst hres2
  constructor
  · rw [List.map_map]
    calc ((ids.enum).map fun a => SplitKey.idx a.1)
        = ((ids.enum).map Prod.fst).map SplitKey.idx := by rw [List.map_map]; rfl
      _ = (List.range ids.length).map SplitKey.idx := by rw [enum_fst]
  · rw [List.map_map]
    have hlenrec : ∀ g2 : List Nat,
        (BaseConcatDataset.len
          { datasets := g2.map (fun j => (DS.descriptionRead (c.datasets.getD j dsDefault)).1),
            _description := g2.map (fun j => (DS.descriptionRead (c.datasets.getD j dsDefault)).2) })
          = (g2.map (fun j => DS.len (c.datasets.getD j dsDefault))).sum := by
      intro g2
      rw [concat_len_sum]
      dsimp only
      rw [List.map_map]
      congr 1
      exact List.map_congr_left (fun j _ => ds_len_descriptionRead _)
    calc ((ids.enum).map fun a =>
            (BaseConcatDataset.len
              { datasets := a.2.map (fun j => (DS.descriptionRead (c.datasets.getD j dsDefault)).1),
                _description := a.2.map (fun j => (DS.descriptionRead (c.datasets.getD j dsDefault)).2) }))
        = (ids.enum).map (fun a =>
            ((a.2).map (fun j => DS.len (c.datasets.getD j dsDefault))).sum) :=
          List.map_congr_left (fun a _ => hlenrec a.2)
      _ = ((ids.enum).map Prod.snd).map
            (fun g => (g.map (fun j => DS.len (c.datasets.getD j dsDefault))).sum) := by
          rw [List.map_map]
          rfl
      _ = ids.map (fun g => (g.map (fun j => DS.len (c.datasets.getD j dsDefault))).sum) := by
          rw [enum_snd]

theorem concat_split_explicit_groups_witness :
    ∃ res, BaseConcatDataset.split exConcatP none (some [[0, 2], [1]]) = Except.ok res
      ∧ res.map Prod.fst = (List.range 2).map SplitKey.idx
      ∧ res.map (fun r => (r.2).len) = [4, 2] := by
  have h := concat_split_explicit_groups exConcatP [[0, 2], [1]] (by decide) (by decide)
  refine ⟨_, h.1, ?_, ?_⟩
  · exact (h.2 _ h.1).1
  · rw [(h.2 _ h.1).2]
    rfl

/-! The aggregate description getter: error cases and state preservation. -/

theorem concat_read_fst_datasets (c : BaseConcatDataset) :
    ((c.descriptionRead).1).datasets = c.datasets := by
  unfold BaseConcatDataset.descriptionRead
  cases hc : concatInfos c with
  | none => rfl
  | some infos =>
    dsimp only
    by_cases h1 : 1 < ((infos.map (fun t => t.1)).dedup).length
    · rw [if_pos h1]
    · rw [if_neg h1]
      by_cases h2 : 1 < ((infos.map (fun t => t.2.1)).dedup).length
      · rw [if_pos h2]
      · rw [if_neg h2]
        by_cases h3 : 1 < ((infos.map (fun t => t.2.2)).dedup).length
        · rw [if_pos h3]
        · rw [if_neg h3]
          cases infos with
          | nil => rfl
          | cons t0 rest => rfl

/-- Claim C5: reading the description of a concatenation whose children
report more than one distinct sampling rate (or channel count, or window
length) fails with a `ValueError` identifying which property disagreed, and
the stored aggregate description is left unchanged by the failed read (the
post-read state is the input state). -/
theorem concat_description_mismatch (c : BaseConcatDataset)
    (infos : List (Int × Nat × Nat)) (hinfos : concatInfos c = some infos) :
    (1 < ((infos.map (fun t => t.1)).dedup).length →
        c.descriptionRead = (c, Except.error "Recordings have different sampling rates."))
    ∧ (((infos.map (fun t => t.1)).dedup).length ≤ 1 →
        1 < ((infos.map (fun t => t.2.1)).dedup).length →
        c.descriptionRead = (c, Except.error "Recordings have different number of channels."))
    ∧ (((infos.map (fun t => t.1)).dedup).length ≤ 1 →
        ((infos.map (fun t => t.2.1)).dedup).length ≤ 1 →
        1 < ((infos.map (fun t => t.2.2)).dedup).length →
        c.descriptionRead = (c, Except.error "Recordings have different window lengths.")) := by
  refine ⟨?_, ?_, ?_⟩
  · intro h1
    unfold BaseConcatDataset.descriptionRead
    rw [hinfos]
    dsimp only
    rw [if_pos h1]
  · intro h0 h1
    unfold BaseConcatDataset.descriptionRead
    rw [hinfos]
    dsimp only
    rw [if_neg (by omega), if_pos h1]
  · intro h0a h0b h1
    unfold BaseConcatDataset.descriptionRead
    rw [hinfos]
    dsimp only
    rw [if_neg (by omega), if_neg (by omega), if_pos h1]

theorem concat_description_mismatch_witness :
    exConcatBad.descriptionRead
      = (exConcatBad, Except.error "Recordings have different sampling rates.") := by
  have h := concat_description_mismatch exConcatBad ((concatInfos exConcatBad).getD []) rfl
  exact h.1 (by decide)

theorem mapM_getattr_windows (ws : List WindowsDataset) :
    (ws.map DS.windows).mapM (fun d => DS.getattrInfo d "windows")
      = some (ws.map (fun w =>
          (w.windows.sfreq, w.windows.ch_names.length, w.windows.times.length))) := by
  induction ws with
  | nil => rfl
  | cons w rest ih =>
    rw [List.map_cons, List.map_cons, List.mapM_cons, ih]
    rfl

/-- Claim C10: the equal-window-length check is enforced for window-backed
children as well: a concatenation of `WindowsDataset` children whose
backends report different time-axis lengths, while sampling rate and
channel count agree, fails its description read with the `ValueError`
reporting different window lengths. -/
theorem concat_windows_length_check (ws : List WindowsDataset) (c : BaseConcatDataset)
    (hds : c.datasets = ws.map DS.windows)
    (hsf : ((ws.map (fun w => w.windows.sfreq)).dedup).length ≤ 1)
    (hch : ((ws.map (fun w => w.windows.ch_names.length)).dedup).length ≤ 1)
    (ht : 1 < ((ws.map (fun w => w.windows.times.length)).dedup).length) :
    c.descriptionRead = (c, Except.error "Recordings have different window lengths.") := by
  have hcond : ¬ ((c.datasets.map DS.hasRaw).dedup = [true]) := by
    intro hcontra
    have hmem : true ∈ (c.datasets.map DS.hasRaw).dedup := by
      rw [hcontra]
      simp
    rw [List.mem_dedup] at hmem
    rcases List.mem_map.mp hmem with ⟨d, hd, hdt⟩
    rw [hds] at hd
    rcases List.mem_map.mp hd with ⟨w, _, hw⟩
    subst hw
    simp [DS.hasRaw] at hdt
  have htype : dsTypeOf c.datasets = "windows" := by
    unfold dsTypeOf
    rw [if_neg hcond]
  have hinfos : concatInfos c = some (ws.map (fun w =>
      (w.windows.sfreq, w.windows.ch_names.length, w.windows.times.length))) := by
    unfold concatInfos
    rw [htype, hds]
    exact mapM_getattr_windows ws
  unfold BaseConcatDataset.descriptionRead
  rw [hinfos]
  dsimp only
  rw [List.map_map, List.map_map, List.map_map]
  have e1 : ws.map ((fun t : Int × Nat × Nat => t.1)
        ∘ (fun w => (w.windows.sfreq, w.windows.ch_names.length, w.windows.times.length)))
      = ws.map (fun w => w.windows.sfreq) := List.map_congr_left (fun w _ => rfl)
  have e2 : ws.map ((fun t : Int × Nat × Nat => t.2.1)
        ∘ (fun w => (w.windows.sfreq, w.windows.ch_names.length, w.windows.times.length)))
      = ws.map (fun w => w.windows.ch_names.length) := List.map_congr_left (fun w _ => rfl)
  have e3 : ws.map ((fun t : Int × Nat × Nat => t.2.2)
        ∘ (fun w => (w.windows.sfreq, w.windows.ch_names.length, w.windows.times.length)))
      = ws.map (fun w => w.windows.times.length) := List.map_congr_left (fun w _ => rfl)
  rw [e1, e2, e3]
  rw [if_neg (Nat.not_lt.mpr hsf), if_neg (Nat.not_lt.mpr hch), if_pos ht]

theorem concat_windows_length_check_witness :
    exConcatW.descriptionRead
      = (exConcatW, Except.error "Recordings have different window lengths.") := by
  have h := concat_windows_length_check
    [((exWD1.descriptionRead).1), ((exWD2.descriptionRead).1)] exConcatW
    rfl (by decide) (by decide) (by decide)
  exact h

/-! Group-by lemmas: distinct keys, index groups, and the partition
property. -/

theorem mem_distinctFirstAux (v : Val) :
    ∀ (l : List Val) (seen : List Val),
      v ∈ distinctFirstAux seen l ↔ (v ∈ l ∧ v ∉ seen) := by
  intro l
  induction l with
  | nil => intro seen; simp [distinctFirstAux]
  | cons x xs ih =>
    intro seen
    unfold distinctFirstAux
    by_cases hx : x ∈ seen
    · rw [if_pos hx, ih seen]
      constructor
      · rintro ⟨h1, h2⟩
        exact ⟨List.mem_cons_of_mem x h1, h2⟩
      · rintro ⟨h1, h2⟩
        rcases List.mem_cons.mp h1 with h | h
        · subst h
          exact absurd hx h2
        · exact ⟨h, h2⟩
    · rw [if_neg hx]
      constructor
      · intro hmem
        rcases List.mem_cons.mp hmem with h | h
        · subst h
          exact ⟨List.mem_cons_self _ _, hx⟩
        · rw [ih (x :: seen)] at h
          obtain ⟨h1, h2⟩ := h
          exact ⟨List.mem_cons_of_mem x h1, fun hs => h2 (List.mem_cons_of_mem x hs)⟩
      · rintro ⟨h1, h2⟩
        rcases List.mem_cons.mp h1 with h | h
        · subst h
          exact List.mem_cons_self _ _
        · by_cases hvx : v = x
          · subst hvx
            exact List.mem_cons_self _ _
          · apply List.mem_cons_of_mem
            rw [ih (x :: seen)]
            exact ⟨h, fun hs => (List.mem_cons.mp hs).elim hvx h2⟩

theorem mem_distinctFirst (vs : List Val) (v : Val) :
    v ∈ distinctFirst vs ↔ v ∈ vs := by
  unfold distinctFirst
  rw [mem_distinctFirstAux]
  simp

theorem nodup_distinctFirstAux :
    ∀ (l : List Val) (seen : List Val), (distinctFirstAux seen l).Nodup := by
  intro l
  induction l with
  | nil => intro seen; simp [distinctFirstAux]
  | cons x xs ih =>
    intro seen
    unfold distinctFirstAux
    by_cases hx : x ∈ seen
    · rw [if_pos hx]
      exact ih seen
    · rw [if_neg hx]
      refine List.nodup_cons.mpr ⟨?_, ih (x :: seen)⟩
      intro hmem
      rw [mem_distinctFirstAux] at hmem
      exact hmem.2 (List.mem_cons_self _ _)

theorem nodup_distinctFirst (vs : List Val) : (distinctFirst vs).Nodup :=
  nodup_distinctFirstAux vs []

theorem getD_eq_get_gen {α : Type} (l : List α) (d : α) (j : Nat) (hj : j < l.length) :
    l.getD j d = l.get ⟨j, hj⟩ := by
  rw [List.getD_eq_get?, List.get?_eq_get hj]
  rfl

theorem mem_indicesOf (vs : List Val) (v : Val) (j : Nat) :
    j ∈ indicesOf vs v ↔ j < vs.length ∧ vs.getD j (Val.i 0) = v := by
  unfold indicesOf
  rw [List.mem_filter, List.mem_range]
  simp

theorem indicesOf_ne_nil (vs : List Val) (v : Val) (hv : v ∈ vs) :
    indicesOf vs v ≠ [] := by
  obtain ⟨n, hn⟩ := List.mem_iff_get.mp hv
  intro hnil
  have hmem : (n : Nat) ∈ indicesOf vs v := by
    rw [mem_indicesOf]
    refine ⟨n.isLt, ?_⟩
    rw [getD_eq_get_gen vs (Val.i 0) n n.isLt]
    exact hn
  rw [hnil] at hmem
  simp at hmem

theorem nodup_indicesOf (vs : List Val) (v : Val) : (indicesOf vs v).Nodup :=
  List.Nodup.filter _ (List.nodup_range _)

theorem count_indicesOf (vs : List Val) (v : Val) (j : Nat) (hj : j < vs.length) :
    (indicesOf vs v).count j = if vs.getD j (Val.i 0) = v then 1 else 0 := by
  by_cases h : vs.getD j (Val.i 0) = v
  · rw [if_pos h]
    apply List.count_eq_one_of_mem (nodup_indicesOf vs v)
    rw [mem_indicesOf]
    exact ⟨hj, h⟩
  · rw [if_neg h]
    apply List.count_eq_zero_of_not_mem
    simp only [mem_indicesOf]
    exact fun hmem => h hmem.2

theorem count_flatten_nat (j : Nat) :
    ∀ L : List (List Nat), (L.flatten).count j = (L.map (List.count j)).sum := by
  intro L
  induction L with
  | nil => rfl
  | cons x xs ih =>
    rw [List.flatten_cons, List.count_append, ih, List.map_cons, List.sum_cons]

theorem sum_ite_eq_one (v0 : Val) :
    ∀ L : List Val, L.Nodup → v0 ∈ L →
      (L.map (fun v => if v0 = v then 1 else 0)).sum = 1 := by
  intro L
  induction L with
  | nil => intro _ hm; simp at hm
  | cons x xs ih =>
    intro hnd hmem
    rw [List.map_cons, List.sum_cons]
    rcases List.mem_cons.mp hmem with h | h
    · subst h
      rw [if_pos rfl]
      have hnotin : v0 ∉ xs := (List.nodup_cons.mp hnd).1
      have hz : (xs.map (fun v => if v0 = v then 1 else 0)).sum = 0 := by
        apply List.sum_eq_zero
        intro y hy
        rcases List.mem_map.mp hy with ⟨z, hz2, hzy⟩
        subst hzy
        rw [if_neg (fun hh => hnotin (by rw [hh]; exact hz2))]
      rw [hz]
    · have hx : v0 ≠ x := fun hh => (List.nodup_cons.mp hnd).1 (by rw [← hh]; exact h)
      rw [if_neg hx, ih (List.nodup_cons.mp hnd).2 h]

theorem count_groups_eq_one (vs : List Val) (j : Nat) (hj : j < vs.length) :
    (((distinctFirst vs).map (fun v => indicesOf vs v)).flatten).count j = 1 := by
  rw [count_flatten_nat, List.map_map]
  have hstep : (distinctFirst vs).map (List.count j ∘ fun v => indicesOf vs v)
      = (distinctFirst vs).map (fun v => if vs.getD j (Val.i 0) = v then 1 else 0) :=
    List.map_congr_left (fun v _ => by
      simp only [Function.comp_apply]
      exact count_indicesOf vs v j hj)
  rw [hstep]
  apply sum_ite_eq_one
  · exact nodup_distinctFirst vs
  · rw [mem_distinctFirst, getD_eq_get_gen vs (Val.i 0) j hj]
    exact List.get_mem vs j hj

theorem groupbyGroups_eq (df : DataFrame) (p : String) (vs : List Val)
    (hcol : df.mapM (fun r => getVal? r p) = some vs) :
    groupbyGroups df p = some ((distinctFirst vs).map (fun v => (v, indicesOf vs v))) := by
  unfold groupbyGroups
  rw [hcol]
  rfl

/-- Claim C7: `split` with a partition field present in the aggregated
description table groups the child indices by the distinct values of that
field, labels each group by the field value (distinct labels), and the
groups form a full disjoint cover: every child index occurs in exactly one
group. -/
theorem concat_split_by_property (c : BaseConcatDataset) (p : String)
    (df : DataFrame) (vs : List Val)
    (hread : (c.descriptionRead).2 = Except.ok df)
    (hcol : df.mapM (fun r => getVal? r p) = some vs)
    (hlen : vs.length = c.datasets.length) :
    BaseConcatDataset.split c (some p) none
      = Except.ok ((distinctFirst vs).map (fun v =>
          (SplitKey.prop v,
           ({ datasets := (indicesOf vs v).map (fun j => (DS.descriptionRead (c.datasets.getD j dsDefault)).1),
              _description := (indicesOf vs v).map (fun j => (DS.descriptionRead (c.datasets.getD j dsDefault)).2) }
            : BaseConcatDataset))))
    ∧ ((distinctFirst vs).map SplitKey.prop).Nodup
    ∧ (∀ j, j < c.datasets.length →
        (((distinctFirst vs).map (fun v => indicesOf vs v)).flatten).count j = 1) := by
  refine ⟨?_, ?_, ?_⟩
  · have hgroups : ∀ g ∈ ((distinctFirst vs).map (fun v => (v, indicesOf vs v))).map
        (fun g => (SplitKey.prop g.1, g.2)),
        g.2 ≠ [] ∧ ∀ j ∈ g.2, j < c.datasets.length := by
      intro g hg
      rw [List.map_map] at hg
      rcases List.mem_map.mp hg with ⟨v, hv, hgv⟩
      subst hgv
      rw [mem_distinctFirst] at hv
      refine ⟨indicesOf_ne_nil vs v hv, ?_⟩
      intro j hj
      have hj2 : j ∈ indicesOf vs v := hj
      rw [mem_indicesOf] at hj2
      rw [← hlen]
      exact hj2.1
    unfold BaseConcatDataset.split
    rw [hread]
    dsimp only
    rw [groupbyGroups_eq df p vs hcol]
    dsimp only
    rw [concat_read_fst_datasets]
    rw [buildSplits_ok c.datasets _ hgroups]
    rw [List.map_map, List.map_map]
    rfl
  · exact List.Nodup.map (fun a b hab => by injection hab) (nodup_distinctFirst vs)
  · intro j hj
    exact count_groups_eq_one vs j (by omega)

theorem concat_split_by_property_witness :
    (∃ res, BaseConcatDataset.split exConcatP (some "subject") none = Except.ok res)
    ∧ ((distinctFirst exVSP).map SplitKey.prop).Nodup
    ∧ (((distinctFirst exVSP).map (fun v => indicesOf exVSP v)).flatten).count 2 = 1 := by
  have h := concat_split_by_property exConcatP "subject" exDFP exVSP rfl rfl (by decide)
  exact ⟨⟨_, h.1⟩, h.2.1, h.2.2 2 (by decide)⟩

/-! The split/re-concatenate round trip. -/

theorem range_map_getD_eq {α : Type} (f : α → α) (d : α) :
    ∀ l : List α, (∀ x ∈ l, f x = x) →
      (List.range l.length).map (fun i => f (l.getD i d)) = l := by
  intro l
  induction l with
  | nil => intro _; rfl
  | cons x xs ih =>
    intro hf
    rw [List.length_cons, List.range_succ_eq_map, List.map_cons, List.map_map]
    refine congrArg₂ List.cons (hf x (by simp)) ?_
    have hcomp : ((fun i => f ((x :: xs).getD i d)) ∘ Nat.succ)
        = (fun i => f (xs.getD i d)) := by
      funext i
      rfl
    rw [hcomp]
    exact ih (fun y hy => hf y (by simp [hy]))

/-- Claim C8: building a concatenation from `n` children, splitting it by
explicit ids into the `n` singleton groups `[[0]], ..., [[n-1]]`,
extracting each returned concatenation's single child and re-concatenating
them in the original order yields a concatenation whose aggregate
description table equals the original's (same values, same row order). -/
theorem concat_split_roundtrip (l : List DS) (c : BaseConcatDataset)
    (h : BaseConcatDataset.make l = Except.ok c) :
    ∃ res c2,
      BaseConcatDataset.split c none (some ((List.range l.length).map (fun i => [i])))
          = Except.ok res
      ∧ BaseConcatDataset.make (res.map (fun r => (r.2).datasets.getD 0 dsDefault))
          = Except.ok c2
      ∧ c2._description = c._description := by
  obtain ⟨hne, hds, hdesc⟩ := make_ok_inv l c h
  have hlength : c.datasets.length = l.length := by
    rw [hds]
    simp
  have hgne : ∀ g ∈ (List.range l.length).map (fun i => [i]), g ≠ [] := by
    intro g hg
    rcases List.mem_map.mp hg with ⟨i, _, hi⟩
    subst hi
    simp
  have hgrange : ∀ g ∈ (List.range l.length).map (fun i => [i]),
      ∀ j ∈ g, j < c.datasets.length := by
    intro g hg j hj
    rcases List.mem_map.mp hg with ⟨i, hi, hgi⟩
    subst hgi
    have hji : j = i := by simpa using hj
    subst hji
    rw [hlength]
    simpa using hi
  have hsplit := split_explicit_eq c ((List.range l.length).map (fun i => [i])) hgne hgrange
  have hfix : ∀ x ∈ c.datasets, (DS.descriptionRead x).1 = x := by
    intro x hx
    rw [hds] at hx
    rcases List.mem_map.mp hx with ⟨y, _, hy⟩
    subst hy
    exact congrArg Prod.fst (ds_descriptionRead_idem y)
  have hchild : (((((List.range l.length).map (fun i => [i])).enum).map (fun a =>
        (SplitKey.idx a.1,
         ({ datasets := a.2.map (fun j => (DS.descriptionRead (c.datasets.getD j dsDefault)).1),
            _description := a.2.map (fun j => (DS.descriptionRead (c.datasets.getD j dsDefault)).2) }
          : BaseConcatDataset)))).map (fun r => (r.2).datasets.getD 0 dsDefault))
      = c.datasets := by
    rw [List.map_map]
    calc ((((List.range l.length).map (fun i => [i])).enum).map
            ((fun r : SplitKey × BaseConcatDataset => (r.2).datasets.getD 0 dsDefault)
              ∘ (fun a => (SplitKey.idx a.1,
                 ({ datasets := a.2.map (fun j => (DS.descriptionRead (c.datasets.getD j dsDefault)).1),
                    _description := a.2.map (fun j => (DS.descriptionRead (c.datasets.getD j dsDefault)).2) }
                  : BaseConcatDataset)))))
        = ((((List.range l.length).map (fun i => [i])).enum).map Prod.snd).map
            (fun g2 : List Nat =>
              (g2.map (fun j => (DS.descriptionRead (c.datasets.getD j dsDefault)).1)).getD 0 dsDefault) := by
          rw [List.map_map]
          rfl
      _ = ((List.range l.length).map (fun i => [i])).map
            (fun g2 : List Nat =>
              (g2.map (fun j => (DS.descriptionRead (c.datasets.getD j dsDefault)).1)).getD 0 dsDefault) := by
          rw [enum_snd]
      _ = (List.range l.length).map
            (fun i => (DS.descriptionRead (c.datasets.getD i dsDefault)).1) := by
          rw [List.map_map]
          rfl
      _ = c.datasets := by
          rw [← hlength]
          exact range_map_getD_eq (fun x => (DS.descriptionRead x).1) dsDefault c.datasets hfix
  refine ⟨_, { datasets := c.datasets.map (fun d => (DS.descriptionRead d).1),
               _description := c.datasets.map (fun d => (DS.descriptionRead d).2) },
    hsplit, ?_, ?_⟩
  · rw [hchild]
    exact make_ok c.datasets (by rw [hds]; simpa using hne)
  · show c.datasets.map (fun d => (DS.descriptionRead d).2) = c._description
    rw [hds, hdesc, List.map_map]
    exact List.map_congr_left (fun y _ => congrArg Prod.snd (ds_descriptionRead_idem y))

theorem concat_split_roundtrip_witness :
    ∃ res c2,
      BaseConcatDataset.split exConcat none
          (some ((List.range exL.length).map (fun i => [i]))) = Except.ok res
      ∧ BaseConcatDataset.make (res.map (fun r => (r.2).datasets.getD 0 dsDefault))
          = Except.ok c2
      ∧ c2._description = exConcat._description :=
  concat_split_roundtrip exL exConcat rfl

end Braindecode
